import Mathlib

/-!
Verification development for the MoEngage documentation-scraping notebook
(`full_logic.ipynb`).  The notebook has three algorithmic pieces:

* `debug_all_links` — collects the `href` attribute of every anchor on the
  entry page, skipping anchors whose attribute is missing (Python `None`)
  or falsy (the empty string);
* the URL filter — reads the collected links and keeps those starting with
  one of three literal `allowed_prefixes`, appending each match to
  `filtered_links`;
* `scrape_article_with_sections` — walks the direct children of the article
  body and accumulates section content, flushing a section whenever an `h2`
  boundary is met with non-blank accumulated content, and once more at the
  end of the child list.

The I/O surface (Playwright navigation, CSV files, printing) is modelled by
passing the already-materialised data (lists of hrefs, lists of child
elements with their tag name, inner text and image sources) and returning
the values the notebook prints.
-/

namespace MoEngage

/-- The three literal allowlist entries from the notebook. -/
def allowed_prefixes : List String :=
  [ "https://help.moengage.com/hc/en-us/articles/"
  , "https://developers.moengage.com/hc/en-us/articles/"
  , "https://partners.moengage.com/hc/en-us/articles/" ]

/-- Python `s.startswith(p)`: the character sequence of `s` begins with the
character sequence of `p`. -/
def startsWithPy (s p : String) : Bool :=
  p.data.isPrefixOf s.data

/-- Python `any(url.startswith(prefix) for prefix in allowed_prefixes)`. -/
def allowedAny (url : String) : Bool :=
  allowed_prefixes.any (fun p => startsWithPy url p)

/-- The filtering loop of the second notebook cell: each row of the input
CSV is appended to `filtered_links` exactly when it passes `allowedAny`. -/
def filtered_links (rows : List String) : List String :=
  rows.foldl (fun acc url => if allowedAny url then acc ++ [url] else acc) []

/-- The href-collection loop of `debug_all_links`: `get_attribute('href')`
returns `none` when the attribute is missing, and the Python guard
`if href:` also drops the empty string. -/
def debug_all_links (anchors : List (Option String)) : List String :=
  anchors.foldl
    (fun acc href =>
      match href with
      | some h => if h = "" then acc else acc ++ [h]
      | none => acc) []

set_option maxRecDepth 8000 in
example :
    filtered_links
      [ "/relative"
      , "https://help.moengage.com/hc/en-us/articles/123-X"
      , "javascript:void(0)"
      , "https://help.moengage.com/hc/en-us/articles/123-X" ]
      = [ "https://help.moengage.com/hc/en-us/articles/123-X"
        , "https://help.moengage.com/hc/en-us/articles/123-X" ] := by
  decide

example : debug_all_links [some "", none, some "/a"] = ["/a"] := by decide

/-- A materialised direct child of the article body: its lower-cased tag
name, the value of `inner_text()`, and the `src` attributes of the `img`
elements found inside it (Python `None` modelled as `""`, which the guard
`if src:` treats the same way). -/
structure Child where
  tag : String
  innerText : String
  imgSrcs : List String
deriving DecidableEq, Repr

/-- One printed section: the `current_section` label and the stripped
`section_content` the notebook prints under it. -/
structure Sec where
  heading : String
  content : String
deriving DecidableEq, Repr

/-- The loop state of `scrape_article_with_sections`: the running
`current_section`, the running `section_content`, and the sections printed
so far. -/
structure SegState where
  heading : String
  content : String
  emitted : List Sec
deriving DecidableEq, Repr

/-- The sentinel `current_section` label before the first `h2`. -/
def introLabel : String := "Intro (before first H2)"

/-- Python `s.strip()`: drop whitespace characters from both ends of the
character sequence. -/
def trimPy (s : String) : String :=
  ⟨(((s.data.dropWhile Char.isWhitespace).reverse.dropWhile
      Char.isWhitespace).reverse)⟩

/-- The image sub-loop of the non-heading branch: each `img` with a truthy
`src` appends an `[Image: src]` line to `section_content`. -/
def appendImages (content : String) (srcs : List String) : String :=
  srcs.foldl
    (fun acc src => if src ≠ "" then acc ++ "[Image: " ++ src ++ "]\n" else acc)
    content

/-- The body of the `for child in body_children` loop.  On an `h2`, a
section is printed only when the stripped accumulated content is truthy,
and `current_section` becomes the heading's `inner_text()` verbatim; on any
other tag the child's text (when its strip is truthy) and its image lines
are appended to `section_content`. -/
def segStep (st : SegState) (child : Child) : SegState :=
  if child.tag == "h2" then
    if trimPy st.content ≠ "" then
      { heading := child.innerText
      , content := ""
      , emitted := st.emitted ++ [⟨st.heading, trimPy st.content⟩] }
    else
      { st with heading := child.innerText }
  else
    let withText :=
      if trimPy child.innerText ≠ "" then st.content ++ child.innerText ++ "\n"
      else st.content
    { st with content := appendImages withText child.imgSrcs }

/-- The state in which the loop starts. -/
def initState : SegState := ⟨introLabel, "", []⟩

/-- Running the segmentation loop over the body's children. -/
def segLoop (children : List Child) (st : SegState) : SegState :=
  children.foldl segStep st

/-- The full segmentation of `scrape_article_with_sections`: the loop over
the children followed by the final flush of a non-blank remainder. -/
def segment (children : List Child) : List Sec :=
  let st := segLoop children initState
  st.emitted ++ if trimPy st.content ≠ "" then [⟨st.heading, trimPy st.content⟩] else []

/-- The result of a fetch, as the notebook reports it: the (possibly
sentinel) title, whether the `[No Body Found]` branch was taken, and the
sections printed. -/
structure Article where
  title : String
  noBody : Bool
  sections : List Sec
deriving DecidableEq, Repr

/-- Python `await title_el.inner_text() if title_el else '[No Title Found]'`. -/
def titleOrSentinel : Option String → String
  | some t => t
  | none => "[No Title Found]"

/-- The observable outcome of `scrape_article_with_sections` once the page
queries are materialised: `none` for the body means the selector
`div.article__body` matched nothing, in which case the notebook prints
`[No Body Found]` and returns before segmenting. -/
def scrape_article_with_sections
    (title : Option String) (body : Option (List Child)) : Article :=
  match body with
  | none => ⟨titleOrSentinel title, true, []⟩
  | some children => ⟨titleOrSentinel title, false, segment children⟩

/-- The observable outcome of `scrape_single_article`: the title and the
body text, each replaced by its sentinel when the selector matched
nothing. -/
def scrape_single_article
    (title : Option String) (bodyText : Option String) : String × String :=
  ( titleOrSentinel title
  , match bodyText with
    | some t => t
    | none => "[No Body Found]" )

example :
    segment
      [ ⟨"p", "Intro text", []⟩
      , ⟨"h2", "Setup", []⟩
      , ⟨"p", "Step1", []⟩
      , ⟨"div", "", ["x.png"]⟩
      , ⟨"h2", "FAQ", []⟩
      , ⟨"p", "Q1", []⟩ ]
      = [ ⟨introLabel, "Intro text"⟩
        , ⟨"Setup", "Step1\n[Image: x.png]"⟩
        , ⟨"FAQ", "Q1"⟩ ] := by decide

example : segment [⟨"h2", "  Setup  ", []⟩, ⟨"p", "x", []⟩]
    = [⟨"  Setup  ", "x"⟩] := by decide

example : segment [⟨"h2", "A", []⟩, ⟨"h2", "B", []⟩, ⟨"p", "x", []⟩]
    = [⟨"B", "x"⟩] := by decide

lemma filtered_links_loop (rows : List String) (acc : List String) :
    rows.foldl (fun acc url => if allowedAny url then acc ++ [url] else acc) acc
      = acc ++ rows.filter allowedAny := by
  induction rows generalizing acc with
  | nil => simp
  | cons r rs ih =>
      rw [List.foldl_cons, List.filter_cons]
      by_cases h : allowedAny r = true
      · simp only [h, if_true, ih, List.append_assoc, List.singleton_append]
      · simp only [h, if_false, ih]
        simp at h
        simp [h]

/-- The filtering loop keeps exactly the rows passing the allowlist test,
in order, with multiplicity. -/
lemma filtered_links_eq (rows : List String) :
    filtered_links rows = rows.filter allowedAny := by
  simpa using filtered_links_loop rows []

/-- The Python guard `if href:` keeps exactly the present, non-empty
attribute values, in order. -/
lemma debug_all_links_eq (anchors : List (Option String)) :
    debug_all_links anchors
      = anchors.filterMap
          (fun href =>
            match href with
            | some h => if h = "" then none else some h
            | none => none) := by
  have loop : ∀ (xs : List (Option String)) (acc : List String),
      xs.foldl
          (fun acc href =>
            match href with
            | some h => if h = "" then acc else acc ++ [h]
            | none => acc) acc
        = acc ++ xs.filterMap
            (fun href =>
              match href with
              | some h => if h = "" then none else some h
              | none => none) := by
    intro xs
    induction xs with
    | nil => simp
    | cons x xs ih =>
        intro acc
        cases x with
        | none => simpa [List.filterMap_cons] using ih acc
        | some h =>
            by_cases hh : h = ""
            · simp [hh, List.filterMap_cons, ih]
            · simp [hh, List.filterMap_cons, ih, List.append_assoc]
  simpa [debug_all_links] using loop anchors []

lemma dropWhile_head_false (p : α → Bool) (l : List α) :
    ∀ a, (l.dropWhile p).head? = some a → p a = false := by
  induction l with
  | nil => simp
  | cons b t ih =>
      intro a
      by_cases hb : p b = true
      · rw [List.dropWhile_cons, if_pos hb]
        exact ih a
      · rw [List.dropWhile_cons, if_neg hb]
        intro h
        obtain rfl : b = a := by simpa using h
        simpa using hb

lemma dropWhile_eq_self_of_head (p : α → Bool) (l : List α)
    (h : ∀ a, l.head? = some a → p a = false) :
    l.dropWhile p = l := by
  cases l with
  | nil => rfl
  | cons a t =>
      rw [List.dropWhile_cons, if_neg]
      simp [h a rfl]

lemma dropWhile_dropWhile (p : α → Bool) (l : List α) :
    (l.dropWhile p).dropWhile p = l.dropWhile p :=
  dropWhile_eq_self_of_head p _ (dropWhile_head_false p l)

lemma getLast?_dropWhile (p : α → Bool) (l : List α)
    (h : l.dropWhile p ≠ []) :
    (l.dropWhile p).getLast? = l.getLast? := by
  conv_rhs => rw [← List.takeWhile_append_dropWhile (p := p) (l := l)]
  rw [List.getLast?_append_of_ne_nil _ h]

/-- Stripping both ends of a character list is idempotent. -/
lemma trimChars_idem (p : α → Bool) (l : List α) :
    (((((l.dropWhile p).reverse.dropWhile p).reverse.dropWhile
          p).reverse.dropWhile p).reverse
      = ((l.dropWhile p).reverse.dropWhile p).reverse) := by
  by_cases hnil : (l.dropWhile p).reverse.dropWhile p = []
  · simp [hnil]
  · have hdw : ((l.dropWhile p).reverse.dropWhile p).reverse.dropWhile p
        = ((l.dropWhile p).reverse.dropWhile p).reverse := by
      apply dropWhile_eq_self_of_head
      intro a ha
      rw [List.head?_reverse, getLast?_dropWhile p _ hnil,
        List.getLast?_reverse] at ha
      exact dropWhile_head_false p l a ha
    rw [hdw, List.reverse_reverse, dropWhile_dropWhile]

/-- Python `strip` is idempotent. -/
lemma trimPy_idem (s : String) : trimPy (trimPy s) = trimPy s := by
  have h := trimChars_idem Char.isWhitespace s.data
  simp only [trimPy]
  exact congrArg String.mk h

/-- The `inner_text()` values of the `h2` children, in document order. -/
def headingTexts (cs : List Child) : List String :=
  (cs.filter (fun c => c.tag == "h2")).map Child.innerText

lemma headingTexts_cons (c : Child) (cs : List Child) :
    headingTexts (c :: cs)
      = if (c.tag == "h2") = true then c.innerText :: headingTexts cs
        else headingTexts cs := by
  by_cases h : (c.tag == "h2") = true
  · simp [headingTexts, List.filter_cons, h]
  · simp [headingTexts, List.filter_cons, h]

lemma segLoop_cons (c : Child) (cs : List Child) (st : SegState) :
    segLoop (c :: cs) st = segLoop cs (segStep st c) := rfl

/-- The heading labels seen by the loop — the emitted ones followed by the
running label — form a subsequence of the labels available at loop entry
followed by the `h2` texts still to come. -/
lemma segLoop_heads_sublist (cs : List Child) (st : SegState) :
    ((segLoop cs st).emitted.map Sec.heading
        ++ [(segLoop cs st).heading]).Sublist
      (st.emitted.map Sec.heading ++ st.heading :: headingTexts cs) := by
  induction cs generalizing st with
  | nil => simp [segLoop, headingTexts]
  | cons c cs ih =>
      rw [segLoop_cons, headingTexts_cons]
      by_cases h1 : (c.tag == "h2") = true
      · by_cases h2 : trimPy st.content ≠ ""
        · have hst : segStep st c
              = ⟨c.innerText, "",
                  st.emitted ++ [⟨st.heading, trimPy st.content⟩]⟩ := by
            simp [segStep, h1, h2]
          rw [hst, if_pos h1]
          have := ih (⟨c.innerText, "",
            st.emitted ++ [⟨st.heading, trimPy st.content⟩]⟩ : SegState)
          simpa [List.append_assoc] using this
        · have hst : segStep st c = { st with heading := c.innerText } := by
            simp [segStep, h1, h2]
          rw [hst, if_pos h1]
          refine (ih _).trans ?_
          exact List.Sublist.append_left
            ((List.Sublist.refl _).cons st.heading) _
      · have hst : (segStep st c).heading = st.heading
            ∧ (segStep st c).emitted = st.emitted := by
          simp [segStep, h1]
        rw [if_neg h1]
        have := ih (segStep st c)
        rw [hst.1, hst.2] at this
        exact this

/-- Every section the loop emits keeps non-empty, end-stripped content,
provided the already-emitted ones do. -/
lemma segLoop_emitted_inv (cs : List Child) (st : SegState)
    (h : ∀ s ∈ st.emitted, s.content ≠ "" ∧ s.content = trimPy s.content) :
    ∀ s ∈ (segLoop cs st).emitted,
      s.content ≠ "" ∧ s.content = trimPy s.content := by
  induction cs generalizing st with
  | nil => exact h
  | cons c cs ih =>
      rw [segLoop_cons]
      by_cases h1 : (c.tag == "h2") = true
      · by_cases h2 : trimPy st.content ≠ ""
        · apply ih
          have hst : segStep st c
              = ⟨c.innerText, "",
                  st.emitted ++ [⟨st.heading, trimPy st.content⟩]⟩ := by
            simp [segStep, h1, h2]
          rw [hst]
          intro s hs
          rcases List.mem_append.1 hs with hs | hs
          · exact h s hs
          · rcases List.mem_singleton.1 hs with rfl
            exact ⟨h2, (trimPy_idem st.content).symm⟩
        · apply ih
          have hst : segStep st c = { st with heading := c.innerText } := by
            simp [segStep, h1, h2]
          rw [hst]
          exact h
      · apply ih
        have hst : (segStep st c).emitted = st.emitted := by
          simp [segStep, h1]
        rw [hst]
        exact h

/-- Heading labels surviving the loop come from the labels at entry or from
an `h2` child's verbatim inner text. -/
lemma segLoop_heading_pred (P : String → Prop) (cs : List Child)
    (st : SegState)
    (hcs : ∀ c ∈ cs, (c.tag == "h2") = true → P c.innerText)
    (hst : P st.heading) (hem : ∀ s ∈ st.emitted, P s.heading) :
    P (segLoop cs st).heading
      ∧ ∀ s ∈ (segLoop cs st).emitted, P s.heading := by
  induction cs generalizing st with
  | nil => exact ⟨hst, hem⟩
  | cons c cs ih =>
      rw [segLoop_cons]
      have hcs' : ∀ c' ∈ cs, (c'.tag == "h2") = true → P c'.innerText :=
        fun c' hc' => hcs c' (List.mem_cons_of_mem c hc')
      by_cases h1 : (c.tag == "h2") = true
      · have hPc : P c.innerText := hcs c (List.mem_cons_self c cs) h1
        by_cases h2 : trimPy st.content ≠ ""
        · have hst' : segStep st c
              = ⟨c.innerText, "",
                  st.emitted ++ [⟨st.heading, trimPy st.content⟩]⟩ := by
            simp [segStep, h1, h2]
          rw [hst']
          refine ih _ hcs' hPc ?_
          intro s hs
          rcases List.mem_append.1 hs with hs | hs
          · exact hem s hs
          · rcases List.mem_singleton.1 hs with rfl
            exact hst
        · have hst' : segStep st c = { st with heading := c.innerText } := by
            simp [segStep, h1, h2]
          rw [hst']
          exact ih _ hcs' hPc hem
      · have hstep : (segStep st c).heading = st.heading
            ∧ (segStep st c).emitted = st.emitted := by
          simp [segStep, h1]
        have := ih (segStep st c) hcs' (hstep.1 ▸ hst) (hstep.2 ▸ hem)
        exact this

lemma appendImages_cons (content s : String) (ss : List String) :
    appendImages content (s :: ss)
      = appendImages
          (if s = "" then content else content ++ "[Image: " ++ s ++ "]\n")
          ss := by
  simp only [appendImages, List.foldl_cons]
  by_cases hs : s = ""
  · rw [if_neg (by simp [hs]), if_pos hs]
  · rw [if_pos hs, if_neg hs]

/-- The image sub-loop only ever appends to the accumulated content. -/
lemma appendImages_hom (srcs : List String) :
    ∀ content : String,
      appendImages content srcs = content ++ appendImages "" srcs := by
  induction srcs with
  | nil =>
      intro content
      simp [appendImages]
  | cons s ss ih =>
      intro content
      rw [appendImages_cons, appendImages_cons]
      by_cases hs : s = ""
      · rw [if_pos hs, if_pos hs]
        exact ih content
      · rw [if_neg hs, if_neg hs,
          ih (content ++ "[Image: " ++ s ++ "]\n"),
          ih ("" ++ "[Image: " ++ s ++ "]\n")]
        simp [String.append_assoc]

/-- The matching article URL of the spec's end-to-end example 1. -/
def exampleArticleURL : String :=
  "https://help.moengage.com/hc/en-us/articles/123-X"

/-- The raw-link list of the spec's end-to-end example 1. -/
def exampleRawLinks : List String :=
  ["/relative", exampleArticleURL, "javascript:void(0)", exampleArticleURL]

set_option maxRecDepth 8000 in
/-- C1 (counterexample): on the spec's own example input the filter output
contains the matching URL twice — the loop never deduplicates — so the
output is not duplicate-free and has two entries, not one. -/
theorem C1_counterexample :
    filtered_links exampleRawLinks = [exampleArticleURL, exampleArticleURL]
      ∧ ¬ (filtered_links exampleRawLinks).Nodup
      ∧ (filtered_links exampleRawLinks).length ≠ 1 := by
  decide

set_option maxRecDepth 8000 in
/-- C1 (amended): the URL Filter's output contains each URL exactly as
often as it appears among the matching input entries — no deduplication —
and the example input yields two output entries, both the matching URL. -/
theorem C1_filter_multiplicity :
    (∀ (rows : List String) (url : String),
        (filtered_links rows).count url
          = if allowedAny url = true then rows.count url else 0)
      ∧ filtered_links exampleRawLinks
          = [exampleArticleURL, exampleArticleURL] := by
  constructor
  · intro rows url
    rw [filtered_links_eq]
    by_cases h : allowedAny url = true
    · rw [if_pos h, List.count_filter h]
    · rw [if_neg h, List.count_eq_zero]
      intro hmem
      exact h (List.mem_filter.1 hmem).2
  · decide

/-- C2: every URL in the filter output passes the allowlist test, and an
input with only non-matching links yields the empty list. -/
theorem C2_filter_sound (rows : List String) :
    (∀ url ∈ filtered_links rows, allowedAny url = true)
      ∧ ((∀ url ∈ rows, allowedAny url = false) → filtered_links rows = []) := by
  constructor
  · intro url hmem
    rw [filtered_links_eq] at hmem
    exact (List.mem_filter.1 hmem).2
  · intro h
    rw [filtered_links_eq, List.filter_eq_nil_iff]
    intro a ha
    simp [h a ha]

set_option maxRecDepth 8000 in
/-- Witness for C2 at a concrete all-non-matching input. -/
theorem C2_filter_sound_witness :
    (∀ url ∈ filtered_links ["/relative", "javascript:void(0)"],
        allowedAny url = true)
      ∧ filtered_links ["/relative", "javascript:void(0)"] = [] :=
  ⟨(C2_filter_sound ["/relative", "javascript:void(0)"]).1,
    (C2_filter_sound ["/relative", "javascript:void(0)"]).2 (by decide)⟩

/-- C3: the heading sequence of the emitted sections follows the document
order of the `h2` children (with the intro sentinel first when emitted),
and exactly one extra section is emitted after the last child when and
only when stripped content has accumulated since the last boundary. -/
theorem C3_section_order (cs : List Child) :
    ((segment cs).map Sec.heading).Sublist (introLabel :: headingTexts cs)
      ∧ (segment cs).length
          = (segLoop cs initState).emitted.length
            + (if trimPy (segLoop cs initState).content = "" then 0 else 1) := by
  have h := segLoop_heads_sublist cs initState
  have hinit : initState.emitted.map Sec.heading
      ++ initState.heading :: headingTexts cs
        = introLabel :: headingTexts cs := by
    simp [initState]
  rw [hinit] at h
  constructor
  · by_cases hc : trimPy (segLoop cs initState).content = ""
    · have hseg : segment cs = (segLoop cs initState).emitted := by
        simp [segment, hc]
      rw [hseg]
      exact (List.sublist_append_left _ _).trans h
    · have hseg : segment cs
          = (segLoop cs initState).emitted
            ++ [⟨(segLoop cs initState).heading,
                  trimPy (segLoop cs initState).content⟩] := by
        simp [segment, hc]
      rw [hseg]
      simpa using h
  · by_cases hc : trimPy (segLoop cs initState).content = ""
    · simp [segment, hc]
    · simp [segment, hc]

/-- C4: an `h2` met with a blank accumulator emits nothing and only
replaces the running heading, and no emitted section ever has empty
content. -/
theorem C4_no_empty_section (cs : List Child) (st : SegState) (c : Child)
    (hc : (c.tag == "h2") = true) (he : trimPy st.content = "") :
    segStep st c = { st with heading := c.innerText }
      ∧ ∀ s ∈ segment cs, s.content ≠ "" := by
  constructor
  · simp [segStep, hc, he]
  · intro s hs
    have hinv := segLoop_emitted_inv cs initState (by simp [initState])
    simp only [segment] at hs
    rcases List.mem_append.1 hs with hs | hs
    · exact (hinv s hs).1
    · by_cases hfl : trimPy (segLoop cs initState).content = ""
      · rw [if_neg (by simpa using hfl)] at hs
        cases hs
      · rw [if_pos hfl] at hs
        rcases List.mem_singleton.1 hs with rfl
        exact hfl

/-- Witness for C4: a body whose first child is a heading yields no intro
section, and one heading directly after another yields no section for the
first. -/
theorem C4_no_empty_section_witness :
    segStep initState ⟨"h2", "A", []⟩
        = { initState with heading := "A" }
      ∧ ∀ s ∈ segment [⟨"h2", "A", []⟩, ⟨"h2", "B", []⟩, ⟨"p", "x", []⟩],
          s.content ≠ "" :=
  C4_no_empty_section [⟨"h2", "A", []⟩, ⟨"h2", "B", []⟩, ⟨"p", "x", []⟩]
    initState ⟨"h2", "A", []⟩ (by decide) (by decide)

/-- C5: a non-heading child contributes its text part and its image lines
independently — the step appends the (possibly empty) text part followed
by one image line per non-empty `src`, in order, emitting no section — and
a child with blank text and exactly one non-empty image source contributes
exactly one image line and no text. -/
theorem C5_image_independence (st : SegState) (c : Child)
    (hc : (c.tag == "h2") = false) :
    (segStep st c).content
        = st.content
            ++ (if trimPy c.innerText = "" then "" else c.innerText ++ "\n")
            ++ appendImages "" c.imgSrcs
      ∧ (segStep st c).heading = st.heading
      ∧ (segStep st c).emitted = st.emitted
      ∧ (trimPy c.innerText = "" → ∀ src, c.imgSrcs = [src] → src ≠ "" →
          (segStep st c).content = st.content ++ "[Image: " ++ src ++ "]\n") := by
  have hstep : segStep st c
      = { st with content := appendImages (if trimPy c.innerText ≠ "" then st.content ++ c.innerText ++ "\n" else st.content) c.imgSrcs } := by
    simp [segStep, hc]
  refine ⟨?_, by rw [hstep], by rw [hstep], ?_⟩
  · rw [hstep]
    by_cases ht : trimPy c.innerText = ""
    · rw [if_pos ht]
      rw [if_neg (by simpa using ht)]
      simp [appendImages_hom c.imgSrcs st.content]
    · rw [if_neg ht]
      rw [if_pos (by simpa using ht)]
      rw [appendImages_hom c.imgSrcs]
      simp [String.append_assoc]
  · intro ht src hsrc hne
    rw [hstep]
    rw [if_neg (by simpa using ht), hsrc]
    rw [appendImages_cons, if_neg hne]
    simp [appendImages]

/-- Witness for C5: a `div` with blank text and one embedded image yields
exactly its image line. -/
theorem C5_image_independence_witness :
    (segStep initState ⟨"div", "", ["x.png"]⟩).content
      = initState.content ++ "[Image: " ++ "x.png" ++ "]\n" :=
  (C5_image_independence initState ⟨"div", "", ["x.png"]⟩ (by decide)).2.2.2
    (by decide) "x.png" rfl (by decide)

/-- C6: a page whose body selector matches nothing produces no sections
and raises nothing; the `noBody` indicator is set exactly in that case,
and `scrape_single_article` reports its own `[No Body Found]` sentinel. -/
theorem C6_missing_body (t : Option String) :
    (scrape_article_with_sections t none).sections = []
      ∧ (scrape_article_with_sections t none).noBody = true
      ∧ (∀ body, ((scrape_article_with_sections t body).noBody = true
            ↔ body = none))
      ∧ (scrape_single_article t none).2 = "[No Body Found]" := by
  refine ⟨rfl, rfl, ?_, rfl⟩
  intro body
  cases body with
  | none => simp [scrape_article_with_sections]
  | some cs => simp [scrape_article_with_sections]

/-- C7: the URL filter is idempotent — filtering its own output changes
nothing. -/
theorem C7_filter_idempotent (rows : List String) :
    filtered_links (filtered_links rows) = filtered_links rows := by
  rw [filtered_links_eq, filtered_links_eq, List.filter_filter]
  simp

/-- C8 (counterexample): the code stores the `h2` heading verbatim, so a
heading with surrounding whitespace is emitted untrimmed, unequal to its
trimmed text. -/
theorem C8_counterexample :
    (segment [⟨"h2", "  Setup  ", []⟩, ⟨"p", "x", []⟩]).map Sec.heading
        = ["  Setup  "]
      ∧ trimPy "  Setup  " = "Setup"
      ∧ ("  Setup  " : String) ≠ "Setup" := by
  decide

/-- C8 (amended): every emitted section's content is non-empty and
end-stripped as a whole, and every emitted heading is either the intro
sentinel or the verbatim (untrimmed) inner text of some `h2` child. -/
theorem C8_emitted_strings (cs : List Child) :
    ∀ s ∈ segment cs,
      s.content ≠ "" ∧ s.content = trimPy s.content
        ∧ (s.heading = introLabel
            ∨ ∃ c ∈ cs, (c.tag == "h2") = true ∧ s.heading = c.innerText) := by
  intro s hs
  have hinv := segLoop_emitted_inv cs initState (by simp [initState])
  have hpred := segLoop_heading_pred
    (fun h => h = introLabel
      ∨ ∃ c ∈ cs, (c.tag == "h2") = true ∧ h = c.innerText)
    cs initState
    (fun c hc hh => Or.inr ⟨c, hc, hh, rfl⟩)
    (Or.inl (by simp [initState]))
    (by simp [initState])
  simp only [segment] at hs
  rcases List.mem_append.1 hs with hs | hs
  · exact ⟨(hinv s hs).1, (hinv s hs).2, hpred.2 s hs⟩
  · by_cases hfl : trimPy (segLoop cs initState).content = ""
    · rw [if_neg (by simpa using hfl)] at hs
      cases hs
    · rw [if_pos hfl] at hs
      rcases List.mem_singleton.1 hs with rfl
      exact ⟨hfl, (trimPy_idem _).symm, hpred.1⟩

/-- Witness for C8 at the concrete untrimmed-heading document. -/
theorem C8_emitted_strings_witness :
    ("x" : String) ≠ "" ∧ ("x" : String) = trimPy "x"
      ∧ (("  Setup  " : String) = introLabel
          ∨ ∃ c ∈ [(⟨"h2", "  Setup  ", []⟩ : Child), ⟨"p", "x", []⟩],
              (c.tag == "h2") = true ∧ ("  Setup  " : String) = c.innerText) :=
  C8_emitted_strings [⟨"h2", "  Setup  ", []⟩, ⟨"p", "x", []⟩]
    ⟨"  Setup  ", "x"⟩ (by decide)

/-- C9: the filter output is exactly the subsequence of input rows passing
the allowlist test, preserving order and multiplicity. -/
theorem C9_filter_subsequence (rows : List String) :
    filtered_links rows = rows.filter allowedAny
      ∧ (filtered_links rows).Sublist rows := by
  refine ⟨filtered_links_eq rows, ?_⟩
  rw [filtered_links_eq]
  exact List.filter_sublist rows

/-- C10: the collected href list never contains the empty string, an
explicit empty href is skipped exactly like a missing attribute, and every
other href is kept in document order. -/
theorem C10_href_guard (anchors pre post : List (Option String)) :
    "" ∉ debug_all_links anchors
      ∧ debug_all_links (pre ++ some "" :: post)
          = debug_all_links (pre ++ none :: post)
      ∧ debug_all_links anchors
          = anchors.filterMap
              (fun href =>
                match href with
                | some h => if h = "" then none else some h
                | none => none) := by
  refine ⟨?_, ?_, debug_all_links_eq anchors⟩
  · rw [debug_all_links_eq]
    intro hmem
    rcases List.mem_filterMap.1 hmem with ⟨a, _, hfa⟩
    cases a with
    | none => cases hfa
    | some h =>
        by_cases hh : h = ""
        · simp [hh] at hfa
        · simp [hh] at hfa
  · rw [debug_all_links_eq, debug_all_links_eq,
      List.filterMap_append, List.filterMap_append]
    simp

/-- Witness for C10 at a concrete anchor list. -/
theorem C10_href_guard_witness :
    "" ∉ debug_all_links [some "", none, some "/a"]
      ∧ debug_all_links ([some "/x"] ++ some "" :: [some "/y"])
          = debug_all_links ([some "/x"] ++ none :: [some "/y"])
      ∧ debug_all_links [some "", none, some "/a"]
          = [some "", none, some "/a"].filterMap
              (fun href =>
                match href with
                | some h => if h = "" then none else some h
                | none => none) :=
  C10_href_guard [some "", none, some "/a"] [some "/x"] [some "/y"]

end MoEngage
